import Mathlib

set_option maxRecDepth 8000

/-!
# Verification of the segmentation-to-detection reconciliation engine

Shallow embedding of `src/modules/segmentationOps.py` (class `SegmentationOps`).

Modelling conventions:
* Python floats are embedded as rationals (`ℚ`); float arithmetic is modelled
  exactly, as the spec's round-trip property asks for rational arithmetic.
* Python strings that the code tokenizes are embedded at token level.
  A `Tok` abstracts one whitespace-free token by how Python's `int()` and
  `float()` read it: `Tok.int n` is a token both accept (such as `"7"`),
  `Tok.flt q` is one only `float()` accepts (such as `"0.15"`), and
  `Tok.junk` is accepted by neither.  A "points string" is its list of
  whitespace-separated tokens; a bbox string `"x1,y1,x2,y2"` is its list of
  comma-separated tokens (the empty bbox string is the empty list).
* `round(x)` in Python rounds half to even; `pyRound` reproduces that.
* JSON dictionary fields that the code reads with `.get`/`in` are embedded
  as `Option` fields; a present-but-not-float-convertible value (such as the
  empty string) is `some none` under `Option (Option ℚ)`.
* Exceptions are embedded as `Option`/abort flags: the outer
  `try/except` of `process_image_segmentations` returns the record as
  mutated so far, which the abort flag of `stepSeg`/`processLoop` models.
-/

/-- One whitespace-free token, abstracted by how Python's `int()` and
`float()` parse it. -/
inductive Tok where
  | int (n : Int)
  | flt (q : ℚ)
  | junk
deriving DecidableEq, Repr

/-- Python `float(token)`: succeeds on integer and float literals. -/
def Tok.toFloat : Tok → Option ℚ
  | .int n => some (n : ℚ)
  | .flt q => some q
  | .junk => none

/-- Python `int(token)`: succeeds only on integer literals. -/
def Tok.toInt : Tok → Option Int
  | .int n => some n
  | _ => none

/-- One entry of `image_data['info']` (a pre-existing detection).
`bbox` is the comma-split token list of the bbox string (empty string = `[]`);
`yolo_bbox` is opaque to the reconciler and kept as a plain string. -/
structure Detection where
  bbox : List Tok
  yolo_bbox : String
  species : String
deriving DecidableEq, Repr

/-- One entry of `image_data['segmentation_indices_array']`.  Fields the
reconciler reads or writes; `segmentation_points` and
`denormalized_segmentation_points` are space-split token lists,
`denorm_points_bbox` and `bbox` are comma-split token lists. -/
structure SegEntry where
  index : Int
  segmentation_points : List Tok
  points_count : Nat
  denormalized_segmentation_points : List Tok
  denorm_points_bbox : List Tok
  bbox : List Tok
  yolo_bbox : String
  species : String
  overlap_ratio : ℚ
deriving DecidableEq, Repr

/-- The `image_data` dictionary.  `image_width`/`image_height` are
`none` when the key is absent, `some none` when present but not
convertible by `float()` (for example the empty string of the persisted
JSON shape), and `some (some q)` when convertible to `q`.
`info` uses the `.get('info', [])` default, so an absent key and an empty
list coincide.  `segmentation_indices_array` is `none` when the key is
absent. -/
structure ImageRecord where
  image_width : Option (Option ℚ)
  image_height : Option (Option ℚ)
  info : List Detection
  segmentation_indices_array : Option (List SegEntry)
deriving DecidableEq, Repr

/-- The raw segmentation text.  `nonempty` is the Python truthiness of the
raw string; `lines` is `content.strip().split('\n')` with every line
space-tokenized. -/
structure SegText where
  nonempty : Bool
  lines : List (List Tok)
deriving DecidableEq, Repr

/-- `float(image_data.get(key, default))`: `none` means the conversion
raised. -/
def floatOrDefault (v : Option (Option ℚ)) (d : ℚ) : Option ℚ :=
  match v with
  | none => some d
  | some c => c

/-- `normalize_coordinates`: division by zero width/height raises
`ZeroDivisionError`, which the method catches, returning `(0.0, 0.0)`. -/
def normalize_coordinates (x y image_width image_height : ℚ) : ℚ × ℚ :=
  if image_width = 0 ∨ image_height = 0 then (0, 0)
  else (x / image_width, y / image_height)

/-- `denormalize_coordinates`: multiplication of numeric inputs never
raises. -/
def denormalize_coordinates (norm_x norm_y image_width image_height : ℚ) : ℚ × ℚ :=
  (norm_x * image_width, norm_y * image_height)

/-- `parse_segmentation_line`: fewer than 3 tokens, or a first token that
`int()` rejects, yields `(None, "")`. -/
def parse_segmentation_line (line : List Tok) : Option Int × List Tok :=
  if line.length < 3 then (none, [])
  else
    match line with
    | [] => (none, [])
    | t :: rest =>
      match t.toInt with
      | some label => (some label, rest)
      | none => (none, [])

/-- One parsed record of `parse_segmentation_file`. -/
structure ParsedSeg where
  index : Int
  label : Int
  points_string : List Tok
  points_count : Nat
deriving DecidableEq, Repr

/-- The `for idx, line in enumerate(lines)` loop of
`parse_segmentation_file`, with `idx` carried explicitly. -/
def parseFileAux (idx : Int) : List (List Tok) → List ParsedSeg
  | [] => []
  | line :: rest =>
    match parse_segmentation_line line with
    | (some label, pts) => ⟨idx, label, pts, pts.length / 2⟩ :: parseFileAux (idx + 1) rest
    | (none, _) => parseFileAux (idx + 1) rest

/-- `parse_segmentation_file` on the (already stripped and split) lines. -/
def parse_segmentation_file (lines : List (List Tok)) : List ParsedSeg :=
  parseFileAux 0 lines

/-- Python `round`: round half to even. -/
def pyRound (q : ℚ) : Int :=
  let f := ⌊q⌋
  let r := q - f
  if r < 1/2 then f
  else if 1/2 < r then f + 1
  else if f % 2 = 0 then f else f + 1

/-- The denormalization loop of `process_image_segmentations`
(`for i in range(0, len(points), 2)`): `none` models the `ValueError` of a
non-numeric token and the `IndexError` of an odd-length point list, either
of which escapes to the outer handler. -/
def denormPoints (w h : ℚ) : List Tok → Option (List Int)
  | [] => some []
  | [_] => none
  | tx :: ty :: rest =>
    match tx.toFloat, ty.toFloat with
    | some x, some y =>
      match denormPoints w h rest with
      | some ds => some (pyRound (x * w) :: pyRound (y * h) :: ds)
      | none => none
    | _, _ => none

/-- `points[0::2]`. -/
def everyOther : List ℚ → List ℚ
  | [] => []
  | [x] => [x]
  | x :: _ :: rest => x :: everyOther rest

/-- `[float(p) for p in toks]`: `none` models the `ValueError` of the
first non-numeric token. -/
def floatList : List Tok → Option (List ℚ)
  | [] => some []
  | t :: rest =>
    match t.toFloat, floatList rest with
    | some q, some qs => some (q :: qs)
    | _, _ => none

/-- `get_bbox_from_denormalized_points`: any exception (a non-numeric
token, or `min`/`max` of an empty slice) is caught and yields `""`
(embedded as `[]`). -/
def get_bbox_from_denormalized_points (toks : List Tok) : List Tok :=
  match floatList toks with
  | none => []
  | some ps =>
    let x_coords := everyOther ps
    let y_coords := everyOther (ps.drop 1)
    match x_coords.min?, y_coords.min?, x_coords.max?, y_coords.max? with
    | some x1, some y1, some x2, some y2 => [Tok.flt x1, Tok.flt y1, Tok.flt x2, Tok.flt y2]
    | _, _, _, _ => []

/-- `dp_x1, dp_y1, dp_x2, dp_y2 = map(float, s.split(','))`: succeeds only
on exactly four float-parsable comma-separated tokens. -/
def parseBBoxTok (s : List Tok) : Option (ℚ × ℚ × ℚ × ℚ) :=
  match floatList s with
  | some [a, b, c, d] => some (a, b, c, d)
  | _ => none

/-- `calculate_bbox_overlap_ratio`: any parse failure is caught and yields
`0.0`. -/
def calculate_bbox_overlap_ratio (denorm_points_bbox bbox : List Tok) : ℚ :=
  match parseBBoxTok denorm_points_bbox, parseBBoxTok bbox with
  | some (dpx1, dpy1, dpx2, dpy2), some (bx1, by1, bx2, by2) =>
    let x_left := max dpx1 bx1
    let y_top := max dpy1 by1
    let x_right := min dpx2 bx2
    let y_bottom := min dpy2 by2
    if x_right < x_left ∨ y_bottom < y_top then 0
    else
      let intersection_area := (x_right - x_left) * (y_bottom - y_top)
      let denorm_points_area := (dpx2 - dpx1) * (dpy2 - dpy1)
      if denorm_points_area > 0 then intersection_area / denorm_points_area else 0
  | _, _ => 0

/-- One iteration of the `for bbox in bboxes` matching loop:
`if overlap > max_overlap and overlap >= 0.5`. -/
def matchStep (dpb : List Tok) (acc : Option Detection × ℚ) (b : Detection) :
    Option Detection × ℚ :=
  let overlap := calculate_bbox_overlap_ratio dpb b.bbox
  if overlap > acc.2 ∧ overlap ≥ 1/2 then (some b, overlap) else acc

/-- The matching loop of `process_image_segmentations`, started from
`max_overlap = 0.0`, `matching_bbox = None`. -/
def findMatchingBBox (bboxes : List Detection) (dpb : List Tok) : Option Detection × ℚ :=
  bboxes.foldl (matchStep dpb) (none, 0)

/-- `next((s for s in sia if s['index'] == i), None)`. -/
def firstEntry (sia : List SegEntry) (i : Int) : Option SegEntry :=
  match sia with
  | [] => none
  | e :: rest => if e.index = i then some e else firstEntry rest i

/-- In-place mutation of the dictionary found by `next(...)`: replace the
first entry whose `index` equals `i`. -/
def updateEntry (sia : List SegEntry) (i : Int) (f : SegEntry → SegEntry) : List SegEntry :=
  match sia with
  | [] => []
  | e :: rest => if e.index = i then f e :: rest else e :: updateEntry rest i f

/-- The two assignments made before the denormalization loop:
`seg_dict['segmentation_points'] = ...; seg_dict['points_count'] = ...`. -/
def phase1 (seg : ParsedSeg) (e : SegEntry) : SegEntry :=
  { e with segmentation_points := seg.points_string, points_count := seg.points_count }

/-- The assignments made after the denormalization loop succeeded:
denormalized points, their bbox, the defaults, and the matched detection's
fields when the matching loop found one. -/
def phase2 (dpts : List Int) (bboxes : List Detection) (e : SegEntry) : SegEntry :=
  let dtoks := dpts.map Tok.int
  let dpb := get_bbox_from_denormalized_points dtoks
  let res := findMatchingBBox bboxes dpb
  let e1 : SegEntry :=
    { e with denormalized_segmentation_points := dtoks, denorm_points_bbox := dpb,
             bbox := [], yolo_bbox := "", species := "", overlap_ratio := 0 }
  match res.1 with
  | some mb =>
    { e1 with bbox := mb.bbox, yolo_bbox := mb.yolo_bbox, species := mb.species,
              overlap_ratio := res.2 }
  | none => e1

/-- One iteration of the `for seg in segmentations` loop.  The `Bool` is
the abort flag: `true` means an exception escaped to the outer handler,
which returns the record as mutated so far. -/
def stepSeg (w h : ℚ) (bboxes : List Detection) (sia : List SegEntry) (seg : ParsedSeg) :
    List SegEntry × Bool :=
  match firstEntry sia seg.index with
  | none => (sia, false)
  | some _ =>
    match denormPoints w h seg.points_string with
    | none => (updateEntry sia seg.index (phase1 seg), true)
    | some dpts =>
      (updateEntry (updateEntry sia seg.index (phase1 seg)) seg.index (phase2 dpts bboxes),
       false)

/-- The `for seg in segmentations` loop; a raised abort flag ends the whole
loop (the outer `except` returns the record as mutated so far). -/
def processLoop (w h : ℚ) (bboxes : List Detection) : List ParsedSeg → List SegEntry → List SegEntry
  | [], sia => sia
  | seg :: rest, sia =>
    match stepSeg w h bboxes sia seg with
    | (sia1, true) => sia1
    | (sia1, false) => processLoop w h bboxes rest sia1

/-- `process_image_segmentations`.  Guard order follows the source: the
truthiness/key test, then the width/height conversions (whose failure the
outer handler turns into returning the record untouched), then parsing and
the per-segmentation loop. -/
def process_image_segmentations (image_data : ImageRecord) (segmentation_text : SegText) :
    ImageRecord :=
  if segmentation_text.nonempty = false then image_data
  else
    match image_data.segmentation_indices_array with
    | none => image_data
    | some sia =>
      match floatOrDefault image_data.image_width 1024,
            floatOrDefault image_data.image_height 768 with
      | some image_width, some image_height =>
        let segmentations := parse_segmentation_file segmentation_text.lines
        { image_data with
            segmentation_indices_array :=
              some (processLoop image_width image_height image_data.info segmentations sia) }
      | _, _ => image_data

/-- Specification-side description used by the rounding claim: the exact
products `x*w`, `y*h` of consecutive coordinate pairs, rounded with
Python's half-to-even rounding. -/
def roundedProducts (w h : ℚ) : List ℚ → List Int
  | x :: y :: rest => pyRound (x * w) :: pyRound (y * h) :: roundedProducts w h rest
  | _ => []

/-! ## Concrete inputs used by counterexamples and witnesses -/

/-- A file whose first line is invalid (a single non-numeric token) and
whose second line is valid. -/
def exLinesC1 : List (List Tok) :=
  [[Tok.junk], [Tok.int 1, Tok.flt 0.1, Tok.flt 0.2, Tok.flt 0.3, Tok.flt 0.4]]

/-- A file with one valid line. -/
def exLinesW : List (List Tok) :=
  [[Tok.int 2, Tok.flt 0.1, Tok.flt 0.2, Tok.flt 0.3, Tok.flt 0.4]]

/-- The single record parsed from `exLinesC1`. -/
def exParsedC1 : ParsedSeg :=
  ⟨1, 1, [Tok.flt 0.1, Tok.flt 0.2, Tok.flt 0.3, Tok.flt 0.4], 2⟩

/-- A blank entry with a given index, pre-existing ratio and bbox. -/
def mkEntry (i : Int) (bb : List Tok) (q : ℚ) : SegEntry :=
  ⟨i, [], 99, [], [], bb, "old_yolo", "old_species", q⟩

/-- First line has a non-numeric coordinate token, second line is valid. -/
def exTextC2 : SegText :=
  ⟨true, [[Tok.int 1, Tok.junk, Tok.flt 0.2],
          [Tok.int 2, Tok.flt 0.1, Tok.flt 0.2, Tok.flt 0.3, Tok.flt 0.4]]⟩

/-- A record with entries for indices 0 and 1 and one detection. -/
def exRecC2 : ImageRecord :=
  ⟨some (some 1000), some (some 1000),
   [⟨[Tok.flt 0, Tok.flt 0, Tok.flt 1000, Tok.flt 1000], "y", "navicula"⟩],
   some [mkEntry 0 [] 0, mkEntry 1 [] 0]⟩

/-- A failing parsed segmentation line (non-numeric coordinate). -/
def exSegFail : ParsedSeg := ⟨0, 1, [Tok.junk, Tok.flt 0.2], 1⟩

/-- A well-formed parsed segmentation line. -/
def exSegOk : ParsedSeg := ⟨1, 2, [Tok.flt 0.1, Tok.flt 0.2, Tok.flt 0.3, Tok.flt 0.4], 2⟩

/-- One valid segmentation line for index 0. -/
def exTextOne : SegText :=
  ⟨true, [[Tok.int 1, Tok.flt 0.1, Tok.flt 0.2, Tok.flt 0.3, Tok.flt 0.4]]⟩

/-- A record with a pre-existing non-empty `bbox` on its only entry and an
empty detection list. -/
def exRecC5 : ImageRecord :=
  ⟨some (some 1000), some (some 1000), [], some [mkEntry 0 [Tok.flt 9] 0]⟩

/-- A record whose only entry has index 5 and a pre-existing out-of-range
`overlap_ratio`. -/
def exRecC6 : ImageRecord :=
  ⟨some (some 1000), some (some 1000), [], some [mkEntry 5 [] 2]⟩

/-- One detection fully containing the unit polygon of `exTextOne` scaled
by 1000. -/
def exDetFull : Detection :=
  ⟨[Tok.flt 0, Tok.flt 0, Tok.flt 1000, Tok.flt 1000], "y1", "navicula"⟩

/-- A second detection with the same bbox, for tie-breaking. -/
def exDetFull2 : Detection :=
  ⟨[Tok.flt 0, Tok.flt 0, Tok.flt 1000, Tok.flt 1000], "y2", "cymbella"⟩

/-- A parsed line whose rounding is strict: `0.1555 * 1000 = 155.5`
rounds (half to even) to `156`. -/
def exSegRound : ParsedSeg := ⟨0, 1, [Tok.flt 0.1555, Tok.flt 0.5], 1⟩

/-- One successful step of the loop with an empty detection list. -/
def exStepC5 : List SegEntry × Bool := stepSeg 1000 1000 [] [mkEntry 1 [] 0] exSegOk

/-- The entry produced by that step. -/
def exEntryC5out : SegEntry := phase2 [100, 200, 300, 400] [] (phase1 exSegOk (mkEntry 1 [] 0))

/-- The entry produced by one successful step on a record whose only entry
has index 1, matching `exSegOk`. -/
def exEntryC6out : SegEntry := phase2 [100, 200, 300, 400] [] (phase1 exSegOk (mkEntry 1 [] 0))

/-- The entry produced by one successful step on `exSegRound`. -/
def exEntryC9out : SegEntry := phase2 [156, 500] [] (phase1 exSegRound (mkEntry 0 [] 0))

/-! ## Helper lemmas: `updateEntry` and `firstEntry` -/

theorem phase1_index (seg : ParsedSeg) (e : SegEntry) : (phase1 seg e).index = e.index := rfl

theorem phase2_index (dpts : List Int) (bb : List Detection) (e : SegEntry) :
    (phase2 dpts bb e).index = e.index := by
  simp only [phase2]
  cases h : (findMatchingBBox bb (get_bbox_from_denormalized_points (dpts.map Tok.int))).1 <;>
    simp [h]

theorem map_index_updateEntry (sia : List SegEntry) (i : Int) (f : SegEntry → SegEntry)
    (hf : ∀ e, (f e).index = e.index) :
    (updateEntry sia i f).map SegEntry.index = sia.map SegEntry.index := by
  induction sia with
  | nil => rfl
  | cons e rest ih =>
    by_cases h : e.index = i <;> simp [updateEntry, h, hf, ih]

theorem updateEntry_congr (sia : List SegEntry) (i : Int) (f g : SegEntry → SegEntry)
    (h : ∀ e, f e = g e) : updateEntry sia i f = updateEntry sia i g := by
  induction sia with
  | nil => rfl
  | cons e rest ih =>
    by_cases he : e.index = i <;> simp [updateEntry, he, h, ih]

theorem updateEntry_comp (sia : List SegEntry) (i : Int) (f g : SegEntry → SegEntry)
    (hf : ∀ e, (f e).index = e.index) :
    updateEntry (updateEntry sia i f) i g = updateEntry sia i (fun e => g (f e)) := by
  induction sia with
  | nil => rfl
  | cons e rest ih =>
    by_cases he : e.index = i
    · simp [updateEntry, he, hf]
    · simp [updateEntry, he, ih]

theorem updateEntry_eq_self (sia : List SegEntry) (i : Int) (f : SegEntry → SegEntry)
    (e : SegEntry) (hfind : firstEntry sia i = some e) (hfix : f e = e) :
    updateEntry sia i f = sia := by
  induction sia with
  | nil => simp [firstEntry] at hfind
  | cons a rest ih =>
    by_cases ha : a.index = i
    · simp only [firstEntry, ha, if_pos, Option.some.injEq] at hfind
      subst hfind
      simp [updateEntry, ha, hfix]
    · simp only [firstEntry, ha, if_neg, not_false_iff, ite_false] at hfind
      simp [updateEntry, ha, ih hfind]

theorem firstEntry_updateEntry_self (sia : List SegEntry) (i : Int) (f : SegEntry → SegEntry)
    (hf : ∀ e, (f e).index = e.index) :
    firstEntry (updateEntry sia i f) i = (firstEntry sia i).map f := by
  induction sia with
  | nil => rfl
  | cons a rest ih =>
    by_cases ha : a.index = i
    · simp [updateEntry, firstEntry, ha, hf]
    · simp [updateEntry, firstEntry, ha, ih]

theorem firstEntry_updateEntry_ne (sia : List SegEntry) (i j : Int) (f : SegEntry → SegEntry)
    (hf : ∀ e, (f e).index = e.index) (hij : j ≠ i) :
    firstEntry (updateEntry sia i f) j = firstEntry sia j := by
  induction sia with
  | nil => rfl
  | cons a rest ih =>
    by_cases ha : a.index = i
    · have h1 : ¬ (f a).index = j := by
        rw [hf, ha]; exact fun hh => hij hh.symm
      have h2 : ¬ a.index = j := by
        rw [ha]; exact fun hh => hij hh.symm
      simp [updateEntry, firstEntry, ha, h1, h2, hij, Ne.symm hij]
    · by_cases haj : a.index = j <;>
        simp [updateEntry, firstEntry, ha, haj, ih, hij, Ne.symm hij]

theorem mem_updateEntry (sia : List SegEntry) (i : Int) (f : SegEntry → SegEntry)
    (e : SegEntry) (he : e ∈ updateEntry sia i f) :
    e ∈ sia ∨ ∃ e₀ ∈ sia, e = f e₀ := by
  induction sia with
  | nil => simp [updateEntry] at he
  | cons a rest ih =>
    by_cases ha : a.index = i
    · simp only [updateEntry, ha, if_pos] at he
      rcases List.mem_cons.mp he with h | h
      · right; exact ⟨a, List.mem_cons_self a rest, h⟩
      · left; exact List.mem_cons_of_mem a h
    · simp only [updateEntry, ha, if_neg, not_false_iff, ite_false] at he
      rcases List.mem_cons.mp he with h | h
      · left; exact h ▸ List.mem_cons_self a rest
      · rcases ih h with h1 | ⟨e₀, he₀, hfe⟩
        · left; exact List.mem_cons_of_mem a h1
        · right; exact ⟨e₀, List.mem_cons_of_mem a he₀, hfe⟩

theorem firstEntry_isSome_of_map_index (sia₁ sia₂ : List SegEntry) (i : Int)
    (h : sia₁.map SegEntry.index = sia₂.map SegEntry.index) :
    (firstEntry sia₁ i).isSome = (firstEntry sia₂ i).isSome := by
  induction sia₁ generalizing sia₂ with
  | nil =>
    cases sia₂ with
    | nil => rfl
    | cons b rest => simp at h
  | cons a rest ih =>
    cases sia₂ with
    | nil => simp at h
    | cons b rest₂ =>
      simp only [List.map_cons, List.cons.injEq] at h
      by_cases ha : a.index = i
      · have hb : b.index = i := by rw [← h.1]; exact ha
        simp [firstEntry, ha, hb]
      · have hb : ¬ b.index = i := by rw [← h.1]; exact ha
        simp [firstEntry, ha, hb, ih rest₂ h.2]

/-! ## Helper lemmas: `stepSeg` and `processLoop` preserve the index column -/

theorem stepSeg_map_index (w h : ℚ) (bb : List Detection) (sia : List SegEntry)
    (seg : ParsedSeg) :
    ((stepSeg w h bb sia seg).1).map SegEntry.index = sia.map SegEntry.index := by
  unfold stepSeg
  cases hfe : firstEntry sia seg.index with
  | none => rfl
  | some e =>
    cases hd : denormPoints w h seg.points_string with
    | none => simp [map_index_updateEntry _ _ _ (phase1_index seg)]
    | some dpts =>
      simp only []
      rw [map_index_updateEntry _ _ _ (phase2_index dpts bb),
          map_index_updateEntry _ _ _ (phase1_index seg)]

theorem processLoop_map_index (w h : ℚ) (bb : List Detection) (segs : List ParsedSeg)
    (sia : List SegEntry) :
    (processLoop w h bb segs sia).map SegEntry.index = sia.map SegEntry.index := by
  induction segs generalizing sia with
  | nil => rfl
  | cons seg rest ih =>
    unfold processLoop
    cases hs : stepSeg w h bb sia seg with
    | mk sia1 flag =>
      have hmap : sia1.map SegEntry.index = sia.map SegEntry.index := by
        have := stepSeg_map_index w h bb sia seg
        rw [hs] at this; exact this
      cases flag with
      | true => simpa using hmap
      | false => simp only []; rw [ih sia1, hmap]

theorem firstEntry_processLoop_isSome (w h : ℚ) (bb : List Detection) (segs : List ParsedSeg)
    (sia : List SegEntry) (i : Int) :
    (firstEntry (processLoop w h bb segs sia) i).isSome = (firstEntry sia i).isSome :=
  firstEntry_isSome_of_map_index _ _ _ (processLoop_map_index w h bb segs sia)

/-- Entries whose index differs from every processed line keep their
position and value through the loop (stated for `firstEntry`). -/
theorem firstEntry_stepSeg_ne (w h : ℚ) (bb : List Detection) (sia : List SegEntry)
    (seg : ParsedSeg) (j : Int) (hj : j ≠ seg.index) :
    firstEntry (stepSeg w h bb sia seg).1 j = firstEntry sia j := by
  unfold stepSeg
  cases hfe : firstEntry sia seg.index with
  | none => rfl
  | some e =>
    cases hd : denormPoints w h seg.points_string with
    | none => simp [firstEntry_updateEntry_ne _ _ _ _ (phase1_index seg) hj]
    | some dpts =>
      simp only []
      rw [firstEntry_updateEntry_ne _ _ _ _ (phase2_index dpts bb) hj,
          firstEntry_updateEntry_ne _ _ _ _ (phase1_index seg) hj]

theorem firstEntry_processLoop_ne (w h : ℚ) (bb : List Detection) (segs : List ParsedSeg)
    (sia : List SegEntry) (j : Int) (hj : ∀ seg ∈ segs, j ≠ seg.index) :
    firstEntry (processLoop w h bb segs sia) j = firstEntry sia j := by
  induction segs generalizing sia with
  | nil => rfl
  | cons seg rest ih =>
    unfold processLoop
    cases hs : stepSeg w h bb sia seg with
    | mk sia1 flag =>
      have h1 : firstEntry sia1 j = firstEntry sia j := by
        have := firstEntry_stepSeg_ne w h bb sia seg j (hj seg (List.mem_cons_self _ _))
        rw [hs] at this; exact this
      cases flag with
      | true => simpa using h1
      | false =>
        simp only []
        rw [ih sia1 (fun s hs2 => hj s (List.mem_cons_of_mem _ hs2)), h1]

/-! ## Helper lemmas: the matching loop -/

theorem foldl_matchStep_no_trigger (dpb : List Tok) (l : List Detection)
    (acc : Option Detection × ℚ)
    (h : ∀ b ∈ l, ¬(calculate_bbox_overlap_ratio dpb b.bbox > acc.2 ∧
                    calculate_bbox_overlap_ratio dpb b.bbox ≥ 1/2)) :
    l.foldl (matchStep dpb) acc = acc := by
  induction l with
  | nil => rfl
  | cons a rest ih =>
    have hstep : matchStep dpb acc a = acc := by
      unfold matchStep
      rw [if_neg (h a (List.mem_cons_self _ _))]
    rw [List.foldl_cons, hstep]
    exact ih (fun b hb => h b (List.mem_cons_of_mem _ hb))

theorem foldl_matchStep_trigger (dpb : List Tok) (l : List Detection) :
    ∀ (acc : Option Detection × ℚ),
    (∃ b ∈ l, calculate_bbox_overlap_ratio dpb b.bbox > acc.2 ∧
              calculate_bbox_overlap_ratio dpb b.bbox ≥ 1/2) →
    ∃ l1 b l2, l = l1 ++ b :: l2 ∧
      l.foldl (matchStep dpb) acc = (some b, calculate_bbox_overlap_ratio dpb b.bbox) ∧
      calculate_bbox_overlap_ratio dpb b.bbox ≥ 1/2 ∧
      calculate_bbox_overlap_ratio dpb b.bbox > acc.2 ∧
      (∀ x ∈ l, calculate_bbox_overlap_ratio dpb x.bbox ≤
                calculate_bbox_overlap_ratio dpb b.bbox) ∧
      (∀ x ∈ l1, calculate_bbox_overlap_ratio dpb x.bbox <
                 calculate_bbox_overlap_ratio dpb b.bbox) := by
  induction l with
  | nil => intro acc h; simp at h
  | cons a rest ih =>
    intro acc htrig
    by_cases hq : calculate_bbox_overlap_ratio dpb a.bbox > acc.2 ∧
                  calculate_bbox_overlap_ratio dpb a.bbox ≥ 1/2
    · have hstep : matchStep dpb acc a = (some a, calculate_bbox_overlap_ratio dpb a.bbox) := by
        unfold matchStep; rw [if_pos hq]
      by_cases htr : ∃ b ∈ rest, calculate_bbox_overlap_ratio dpb b.bbox >
          calculate_bbox_overlap_ratio dpb a.bbox ∧
          calculate_bbox_overlap_ratio dpb b.bbox ≥ 1/2
      · obtain ⟨l1, b, l2, heq, hfold, hhalf, hgt, hall, hstrict⟩ :=
          ih (some a, calculate_bbox_overlap_ratio dpb a.bbox) htr
        refine ⟨a :: l1, b, l2, by simp [heq], ?_, hhalf, lt_trans hq.1 hgt, ?_, ?_⟩
        · rw [List.foldl_cons, hstep]; exact hfold
        · intro x hx
          rcases List.mem_cons.mp hx with hx | hx
          · subst hx; exact le_of_lt hgt
          · exact hall x hx
        · intro x hx
          rcases List.mem_cons.mp hx with hx | hx
          · subst hx; exact hgt
          · exact hstrict x hx
      · push_neg at htr
        have hrest : rest.foldl (matchStep dpb) (some a, calculate_bbox_overlap_ratio dpb a.bbox) =
            (some a, calculate_bbox_overlap_ratio dpb a.bbox) := by
          apply foldl_matchStep_no_trigger
          intro b hb hcon
          exact absurd hcon.1 (not_lt.mpr (by
            by_contra hx
            push_neg at hx
            exact absurd hcon.2 (not_le.mpr (htr b hb hx))))
        refine ⟨[], a, rest, rfl, ?_, hq.2, hq.1, ?_, by intro x hx; simp at hx⟩
        · rw [List.foldl_cons, hstep, hrest]
        · intro x hx
          rcases List.mem_cons.mp hx with hx | hx
          · subst hx; exact le_refl _
          · rcases le_or_lt (calculate_bbox_overlap_ratio dpb x.bbox)
              (calculate_bbox_overlap_ratio dpb a.bbox) with hle | hlt
            · exact hle
            · exact le_of_lt (lt_of_lt_of_le (htr x hx hlt) hq.2)
    · have hstep : matchStep dpb acc a = acc := by
        unfold matchStep; rw [if_neg hq]
      have htr : ∃ b ∈ rest, calculate_bbox_overlap_ratio dpb b.bbox > acc.2 ∧
          calculate_bbox_overlap_ratio dpb b.bbox ≥ 1/2 := by
        obtain ⟨b, hb, hcond⟩ := htrig
        rcases List.mem_cons.mp hb with hb | hb
        · exact absurd (hb ▸ hcond) hq
        · exact ⟨b, hb, hcond⟩
      obtain ⟨l1, b, l2, heq, hfold, hhalf, hgt, hall, hstrict⟩ := ih acc htr
      have hax : calculate_bbox_overlap_ratio dpb a.bbox <
          calculate_bbox_overlap_ratio dpb b.bbox := by
        rcases not_and_or.mp hq with h1 | h1
        · exact lt_of_le_of_lt (not_lt.mp h1) hgt
        · exact lt_of_lt_of_le (not_le.mp h1) hhalf
      refine ⟨a :: l1, b, l2, by simp [heq], ?_, hhalf, hgt, ?_, ?_⟩
      · rw [List.foldl_cons, hstep]; exact hfold
      · intro x hx
        rcases List.mem_cons.mp hx with hx | hx
        · subst hx; exact le_of_lt hax
        · exact hall x hx
      · intro x hx
        rcases List.mem_cons.mp hx with hx | hx
        · subst hx; exact hax
        · exact hstrict x hx

/-- Full characterization of the matching loop: either nothing reaches the
0.5 threshold and the result is `(None, 0.0)`, or the result is the first
detection attaining the maximal overlap ratio, which is at least 0.5. -/
theorem findMatchingBBox_spec (dpb : List Tok) (bboxes : List Detection) :
    (findMatchingBBox bboxes dpb = (none, 0) ∧
      ∀ b ∈ bboxes, calculate_bbox_overlap_ratio dpb b.bbox < 1/2) ∨
    (∃ l1 b l2, bboxes = l1 ++ b :: l2 ∧
      findMatchingBBox bboxes dpb = (some b, calculate_bbox_overlap_ratio dpb b.bbox) ∧
      1/2 ≤ calculate_bbox_overlap_ratio dpb b.bbox ∧
      (∀ x ∈ bboxes, calculate_bbox_overlap_ratio dpb x.bbox ≤
                     calculate_bbox_overlap_ratio dpb b.bbox) ∧
      (∀ x ∈ l1, calculate_bbox_overlap_ratio dpb x.bbox <
                 calculate_bbox_overlap_ratio dpb b.bbox)) := by
  by_cases hex : ∃ b ∈ bboxes, 1/2 ≤ calculate_bbox_overlap_ratio dpb b.bbox
  · right
    obtain ⟨b, hb, hr⟩ := hex
    obtain ⟨l1, b', l2, heq, hfold, hhalf, _, hall, hstrict⟩ :=
      foldl_matchStep_trigger dpb bboxes (none, 0)
        ⟨b, hb, lt_of_lt_of_le (by norm_num) hr, hr⟩
    exact ⟨l1, b', l2, heq, hfold, hhalf, hall, hstrict⟩
  · left
    push_neg at hex
    constructor
    · apply foldl_matchStep_no_trigger
      intro b hb hcon
      exact absurd hcon.2 (not_le.mpr (hex b hb))
    · exact hex

/-- The ratio returned by `calculate_bbox_overlap_ratio` always lies in
`[0, 1]`. -/
theorem calculate_ratio_bounds (dpb bbox : List Tok) :
    0 ≤ calculate_bbox_overlap_ratio dpb bbox ∧ calculate_bbox_overlap_ratio dpb bbox ≤ 1 := by
  unfold calculate_bbox_overlap_ratio
  cases h1 : parseBBoxTok dpb with
  | none => simp
  | some v1 =>
    cases h2 : parseBBoxTok bbox with
    | none => simp
    | some v2 =>
      obtain ⟨dpx1, dpy1, dpx2, dpy2⟩ := v1
      obtain ⟨bx1, by1, bx2, by2⟩ := v2
      simp only []
      split_ifs with hdis hpos
      · exact ⟨le_refl 0, by norm_num⟩
      · push_neg at hdis
        have hx : (0:ℚ) ≤ min dpx2 bx2 - max dpx1 bx1 := sub_nonneg.mpr hdis.1
        have hy : (0:ℚ) ≤ min dpy2 by2 - max dpy1 by1 := sub_nonneg.mpr hdis.2
        have hxb : min dpx2 bx2 - max dpx1 bx1 ≤ dpx2 - dpx1 :=
          sub_le_sub (min_le_left _ _) (le_max_left _ _)
        have hyb : min dpy2 by2 - max dpy1 by1 ≤ dpy2 - dpy1 :=
          sub_le_sub (min_le_left _ _) (le_max_left _ _)
        constructor
        · exact div_nonneg (mul_nonneg hx hy) (le_of_lt hpos)
        · rw [div_le_one hpos]
          exact mul_le_mul hxb hyb hy (le_trans hx hxb)
      · exact ⟨le_refl 0, by norm_num⟩

/-- If the matching loop selects nothing, its running maximum is still 0. -/
theorem findMatchingBBox_none_snd (bboxes : List Detection) (dpb : List Tok)
    (h : (findMatchingBBox bboxes dpb).1 = none) :
    (findMatchingBBox bboxes dpb).2 = 0 := by
  rcases findMatchingBBox_spec dpb bboxes with ⟨heq, _⟩ | ⟨l1, b, l2, _, heq, _⟩
  · rw [heq]
  · rw [heq] at h; simp at h

/-! ## Helper lemmas: the parser assigns raw line positions as indices -/

theorem parseFileAux_index_ge (idx : Int) (lines : List (List Tok)) :
    ∀ r ∈ parseFileAux idx lines, idx ≤ r.index := by
  induction lines generalizing idx with
  | nil => intro r hr; simp [parseFileAux] at hr
  | cons line rest ih =>
    intro r hr
    unfold parseFileAux at hr
    cases hp : parse_segmentation_line line with
    | mk lab pts =>
      cases lab with
      | some l =>
        rw [hp] at hr
        rcases List.mem_cons.mp hr with hr | hr
        · rw [hr]
        · exact le_trans (by omega) (ih (idx + 1) r hr)
      | none =>
        rw [hp] at hr
        exact le_trans (by omega) (ih (idx + 1) r hr)

theorem parseFileAux_sorted (idx : Int) (lines : List (List Tok)) :
    (parseFileAux idx lines).Pairwise (fun a b => a.index < b.index) := by
  induction lines generalizing idx with
  | nil => exact List.Pairwise.nil
  | cons line rest ih =>
    unfold parseFileAux
    cases hp : parse_segmentation_line line with
    | mk lab pts =>
      cases lab with
      | some l =>
        refine List.Pairwise.cons ?_ (ih (idx + 1))
        intro b hb
        have := parseFileAux_index_ge (idx + 1) rest b hb
        simp only []
        omega
      | none => exact ih (idx + 1)

theorem parseFileAux_mem (idx : Int) (lines : List (List Tok)) (r : ParsedSeg)
    (hr : r ∈ parseFileAux idx lines) :
    ∃ n : Nat, ∃ hn : n < lines.length, r.index = idx + (n : Int) ∧
      parse_segmentation_line (lines.get ⟨n, hn⟩) = (some r.label, r.points_string) ∧
      r.points_count = r.points_string.length / 2 := by
  induction lines generalizing idx with
  | nil => simp [parseFileAux] at hr
  | cons line rest ih =>
    unfold parseFileAux at hr
    cases hp : parse_segmentation_line line with
    | mk lab pts =>
      cases lab with
      | some l =>
        rw [hp] at hr
        rcases List.mem_cons.mp hr with hr | hr
        · refine ⟨0, by simp, ?_, ?_, ?_⟩
          · rw [hr]; simp
          · simp only [List.get]
            rw [hp, hr]
          · rw [hr]
        · obtain ⟨n, hn, hidx, hget, hcount⟩ := ih (idx + 1) hr
          refine ⟨n + 1, by simpa using Nat.succ_lt_succ hn, by push_cast; omega, ?_, hcount⟩
          simpa using hget
      | none =>
        rw [hp] at hr
        obtain ⟨n, hn, hidx, hget, hcount⟩ := ih (idx + 1) hr
        refine ⟨n + 1, by simpa using Nat.succ_lt_succ hn, by push_cast; omega, ?_, hcount⟩
        simpa using hget

/-! ## Helper lemmas: the denormalization loop rounds exact products -/

theorem denormPoints_eq_roundedProducts (w h : ℚ) :
    ∀ (pts : List Tok) (dpts : List Int), denormPoints w h pts = some dpts →
    ∃ fs : List ℚ, floatList pts = some fs ∧ dpts = roundedProducts w h fs
  | [], dpts, hd => by
    refine ⟨[], rfl, ?_⟩
    simp only [denormPoints, Option.some.injEq] at hd
    rw [← hd]; rfl
  | [t], dpts, hd => by simp [denormPoints] at hd
  | tx :: ty :: rest, dpts, hd => by
    simp only [denormPoints] at hd
    cases hx : tx.toFloat with
    | none => rw [hx] at hd; simp at hd
    | some x =>
      cases hy : ty.toFloat with
      | none => rw [hx, hy] at hd; simp at hd
      | some y =>
        rw [hx, hy] at hd
        cases hds : denormPoints w h rest with
        | none => rw [hds] at hd; simp at hd
        | some ds =>
          rw [hds] at hd
          simp only [Option.some.injEq] at hd
          obtain ⟨fs, hfs, hrp⟩ := denormPoints_eq_roundedProducts w h rest ds hds
          refine ⟨x :: y :: fs, ?_, ?_⟩
          · simp [floatList, hx, hy, hfs]
          · rw [← hd, hrp]; rfl

/-! ## Helper lemmas: idempotence of the per-line update -/

theorem phase1_idem (seg : ParsedSeg) (e : SegEntry) :
    phase1 seg (phase1 seg e) = phase1 seg e := rfl

theorem phase21_idem (seg : ParsedSeg) (dpts : List Int) (bb : List Detection) (e : SegEntry) :
    phase2 dpts bb (phase1 seg (phase2 dpts bb (phase1 seg e))) =
      phase2 dpts bb (phase1 seg e) := by
  simp only [phase1, phase2]
  cases hm : (findMatchingBBox bb (get_bbox_from_denormalized_points (dpts.map Tok.int))).1 <;>
    simp [hm]

theorem processLoop_cons (w h : ℚ) (bb : List Detection) (seg : ParsedSeg)
    (rest : List ParsedSeg) (sia : List SegEntry) :
    processLoop w h bb (seg :: rest) sia =
      (match stepSeg w h bb sia seg with
       | (sia1, true) => sia1
       | (sia1, false) => processLoop w h bb rest sia1) := rfl

theorem processLoop_idem (w h : ℚ) (bb : List Detection) :
    ∀ (segs : List ParsedSeg), segs.Pairwise (fun a b => a.index ≠ b.index) →
    ∀ sia, processLoop w h bb segs (processLoop w h bb segs sia) =
           processLoop w h bb segs sia := by
  intro segs
  induction segs with
  | nil => intro _ sia; rfl
  | cons seg rest ih =>
    intro hdist sia
    obtain ⟨hhead, hrest⟩ := List.pairwise_cons.mp hdist
    cases hfe : firstEntry sia seg.index with
    | none =>
      have hstep : stepSeg w h bb sia seg = (sia, false) := by
        unfold stepSeg; rw [hfe]
      have hfeF : firstEntry (processLoop w h bb rest sia) seg.index = none := by
        have hiso := firstEntry_processLoop_isSome w h bb rest sia seg.index
        rw [hfe] at hiso
        cases hF : firstEntry (processLoop w h bb rest sia) seg.index with
        | none => rfl
        | some e => rw [hF] at hiso; simp at hiso
      have hstepF : stepSeg w h bb (processLoop w h bb rest sia) seg =
          (processLoop w h bb rest sia, false) := by
        unfold stepSeg; rw [hfeF]
      have h1 : processLoop w h bb (seg :: rest) sia = processLoop w h bb rest sia := by
        rw [processLoop_cons, hstep]
      have h2 : processLoop w h bb (seg :: rest) (processLoop w h bb rest sia) =
          processLoop w h bb rest (processLoop w h bb rest sia) := by
        rw [processLoop_cons, hstepF]
      rw [h1, h2, ih hrest sia]
    | some e =>
      cases hd : denormPoints w h seg.points_string with
      | none =>
        have hstep : stepSeg w h bb sia seg =
            (updateEntry sia seg.index (phase1 seg), true) := by
          unfold stepSeg; rw [hfe, hd]
        have hfe1 : firstEntry (updateEntry sia seg.index (phase1 seg)) seg.index =
            some (phase1 seg e) := by
          rw [firstEntry_updateEntry_self _ _ _ (phase1_index seg), hfe]; rfl
        have hstep1 : stepSeg w h bb (updateEntry sia seg.index (phase1 seg)) seg =
            (updateEntry (updateEntry sia seg.index (phase1 seg)) seg.index (phase1 seg),
             true) := by
          unfold stepSeg; rw [hfe1, hd]
        have h1 : processLoop w h bb (seg :: rest) sia =
            updateEntry sia seg.index (phase1 seg) := by
          rw [processLoop_cons, hstep]
        have h2 : processLoop w h bb (seg :: rest) (updateEntry sia seg.index (phase1 seg)) =
            updateEntry (updateEntry sia seg.index (phase1 seg)) seg.index (phase1 seg) := by
          rw [processLoop_cons, hstep1]
        rw [h1, h2, updateEntry_comp _ _ _ _ (phase1_index seg)]
        exact updateEntry_congr _ _ _ _ (fun x => phase1_idem seg x)
      | some dpts =>
        have hstep : stepSeg w h bb sia seg =
            (updateEntry (updateEntry sia seg.index (phase1 seg)) seg.index
               (phase2 dpts bb), false) := by
          unfold stepSeg; rw [hfe, hd]
        have hcomp : updateEntry (updateEntry sia seg.index (phase1 seg)) seg.index
            (phase2 dpts bb) =
            updateEntry sia seg.index (fun x => phase2 dpts bb (phase1 seg x)) :=
          updateEntry_comp _ _ _ _ (phase1_index seg)
        set sia2 := updateEntry sia seg.index (fun x => phase2 dpts bb (phase1 seg x))
          with hsia2
        have h1 : processLoop w h bb (seg :: rest) sia = processLoop w h bb rest sia2 := by
          rw [processLoop_cons, hstep, hcomp]
        have hidx21 : ∀ x : SegEntry,
            ((fun x => phase2 dpts bb (phase1 seg x)) x).index = x.index := by
          intro x
          rw [phase2_index, phase1_index]
        have hfe2 : firstEntry sia2 seg.index = some (phase2 dpts bb (phase1 seg e)) := by
          rw [hsia2, firstEntry_updateEntry_self _ _ _ hidx21, hfe]; rfl
        have hfeF : firstEntry (processLoop w h bb rest sia2) seg.index =
            some (phase2 dpts bb (phase1 seg e)) := by
          rw [firstEntry_processLoop_ne w h bb rest sia2 seg.index hhead]
          exact hfe2
        have hstepF : stepSeg w h bb (processLoop w h bb rest sia2) seg =
            (updateEntry (updateEntry (processLoop w h bb rest sia2) seg.index (phase1 seg))
               seg.index (phase2 dpts bb), false) := by
          unfold stepSeg; rw [hfeF, hd]
        have hupF : updateEntry (updateEntry (processLoop w h bb rest sia2) seg.index
              (phase1 seg)) seg.index (phase2 dpts bb) =
            processLoop w h bb rest sia2 := by
          rw [updateEntry_comp _ _ _ _ (phase1_index seg)]
          exact updateEntry_eq_self _ _ _ _ hfeF (phase21_idem seg dpts bb e)
        have h2 : processLoop w h bb (seg :: rest) (processLoop w h bb rest sia2) =
            processLoop w h bb rest (processLoop w h bb rest sia2) := by
          rw [processLoop_cons, hstepF]
          simp only []
          rw [hupF]
        rw [h1, h2, ih hrest sia2]

/-- The per-entry update leaves either the unmatched defaults or a ratio
from the matching loop, which is between 0.5 and 1. -/
theorem phase2_ratio (dpts : List Int) (bb : List Detection) (x : SegEntry) :
    ((phase2 dpts bb x).overlap_ratio = 0 ∧ (phase2 dpts bb x).bbox = [] ∧
      (phase2 dpts bb x).species = "") ∨
    (1/2 ≤ (phase2 dpts bb x).overlap_ratio ∧ (phase2 dpts bb x).overlap_ratio ≤ 1) := by
  rcases findMatchingBBox_spec (get_bbox_from_denormalized_points (dpts.map Tok.int)) bb with
    ⟨heq, _⟩ | ⟨l1, b, l2, _, heq, hhalf, _, _⟩
  · left
    simp [phase2, heq]
  · right
    have hb := calculate_ratio_bounds (get_bbox_from_denormalized_points (dpts.map Tok.int))
      b.bbox
    simp [phase2, heq]
    exact ⟨by linarith, hb.2⟩

/-- The per-entry update stores the rounded points, the bbox derived from
them, and the running maximum of the matching loop run on that bbox. -/
theorem phase2_fields (dpts : List Int) (bb : List Detection) (x : SegEntry) :
    (phase2 dpts bb x).denormalized_segmentation_points = dpts.map Tok.int ∧
    (phase2 dpts bb x).denorm_points_bbox =
      get_bbox_from_denormalized_points (dpts.map Tok.int) ∧
    (phase2 dpts bb x).overlap_ratio =
      (findMatchingBBox bb (get_bbox_from_denormalized_points (dpts.map Tok.int))).2 := by
  cases hm : (findMatchingBBox bb (get_bbox_from_denormalized_points (dpts.map Tok.int))).1 with
  | some mb => simp [phase2, hm]
  | none =>
    have h0 := findMatchingBBox_none_snd bb
      (get_bbox_from_denormalized_points (dpts.map Tok.int)) hm
    simp [phase2, hm, h0]

/-! ## Claim theorems -/

/-- C1 (counterexample): on a file whose first line is invalid and whose
second line is valid, the single parsed record carries index 1, not the
dense zero-based index 0 the claim asserts. -/
theorem C1_counterexample :
    (parse_segmentation_file exLinesC1).map ParsedSeg.index ≠
      (List.range (parse_segmentation_file exLinesC1).length).map Int.ofNat := by decide

/-- C1 (amended): `parse_segmentation_file` assigns each parsed record the
zero-based position of its source line among all lines of the (stripped)
file, so skipped blank or invalid lines do consume index slots; the
resulting indices are strictly increasing but not necessarily dense. -/
theorem C1_parse_index_is_line_position (lines : List (List Tok)) :
    (parse_segmentation_file lines).Pairwise (fun a b => a.index < b.index) ∧
    ∀ r ∈ parse_segmentation_file lines, ∃ n : Nat, ∃ hn : n < lines.length,
      r.index = (n : Int) ∧
      parse_segmentation_line (lines.get ⟨n, hn⟩) = (some r.label, r.points_string) ∧
      r.points_count = r.points_string.length / 2 := by
  constructor
  · exact parseFileAux_sorted 0 lines
  · intro r hr
    obtain ⟨n, hn, hidx, hget, hcount⟩ := parseFileAux_mem 0 lines r hr
    exact ⟨n, hn, by omega, hget, hcount⟩

/-- Witness for the amended C1 at the concrete two-line file. -/
theorem C1_amended_witness :
    ∃ n : Nat, ∃ hn : n < exLinesC1.length,
      exParsedC1.index = (n : Int) ∧
      parse_segmentation_line (exLinesC1.get ⟨n, hn⟩) =
        (some exParsedC1.label, exParsedC1.points_string) ∧
      exParsedC1.points_count = exParsedC1.points_string.length / 2 :=
  (C1_parse_index_is_line_position exLinesC1).2 exParsedC1 (List.Mem.head _)

/-- C2 (counterexample): a non-numeric coordinate token in the first line
aborts the whole loop, so the valid second line is never processed; its
entry keeps its stale `segmentation_points` instead of the parsed one. -/
theorem C2_counterexample :
    ¬ ∃ e ∈ (process_image_segmentations exRecC2 exTextC2).segmentation_indices_array.getD [],
        e.index = 1 ∧ e.segmentation_points = exSegOk.points_string := by decide

/-- C2 (amended): an exception while processing one line (here a
non-numeric coordinate token) is caught at the level of the whole
operation, so the record mutated so far is returned and every remaining
line is ignored. -/
theorem C2_abort_ignores_rest (w h : ℚ) (bb : List Detection) :
    ∀ (segs1 : List ParsedSeg) (sia : List SegEntry) (seg : ParsedSeg)
      (segs2 : List ParsedSeg),
    (firstEntry sia seg.index).isSome = true →
    denormPoints w h seg.points_string = none →
    processLoop w h bb (segs1 ++ seg :: segs2) sia =
      processLoop w h bb (segs1 ++ [seg]) sia := by
  intro segs1
  induction segs1 with
  | nil =>
    intro sia seg segs2 hidx hfail
    cases hfe : firstEntry sia seg.index with
    | none => rw [hfe] at hidx; simp at hidx
    | some e =>
      have hstep : stepSeg w h bb sia seg =
          (updateEntry sia seg.index (phase1 seg), true) := by
        unfold stepSeg; rw [hfe, hfail]
      simp only [List.nil_append, processLoop_cons, hstep]
  | cons s rest ih =>
    intro sia seg segs2 hidx hfail
    cases hstep : stepSeg w h bb sia s with
    | mk sia1 flag =>
      have hmap : sia1.map SegEntry.index = sia.map SegEntry.index := by
        have := stepSeg_map_index w h bb sia s
        rw [hstep] at this; exact this
      have hidx1 : (firstEntry sia1 seg.index).isSome = true := by
        rw [firstEntry_isSome_of_map_index sia1 sia seg.index hmap]
        exact hidx
      cases flag with
      | true => simp only [List.cons_append, processLoop_cons, hstep]
      | false =>
        simp only [List.cons_append, processLoop_cons, hstep]
        exact ih sia1 seg segs2 hidx1 hfail

/-- Witness for the amended C2: with the failing line first, the valid
line after it does not change the outcome of the loop. -/
theorem C2_amended_witness :
    processLoop 10 10 [] [exSegFail, exSegOk] [mkEntry 0 [] 0] =
      processLoop 10 10 [] [exSegFail] [mkEntry 0 [] 0] :=
  C2_abort_ignores_rest 10 10 [] [] [mkEntry 0 [] 0] exSegFail [exSegOk]
    (by decide) (by decide)

/-- C3 (confirmed): the matching loop either rejects every detection
(all ratios strictly below 0.5, including 0.4999) and leaves
`(None, 0.0)`, or selects the first detection attaining the maximal ratio
among the whole list, that ratio being at least 0.5 (so exactly 0.5
qualifies); and an entry whose loop selected nothing gets empty
`bbox`/`species` and ratio 0.0. -/
theorem C3_matcher_selection (dpb : List Tok) (bboxes : List Detection)
    (dpts : List Int) (e : SegEntry) :
    ((findMatchingBBox bboxes dpb = (none, 0) ∧
        ∀ b ∈ bboxes, calculate_bbox_overlap_ratio dpb b.bbox < 1/2) ∨
      (∃ l1 b l2, bboxes = l1 ++ b :: l2 ∧
        findMatchingBBox bboxes dpb = (some b, calculate_bbox_overlap_ratio dpb b.bbox) ∧
        1/2 ≤ calculate_bbox_overlap_ratio dpb b.bbox ∧
        (∀ x ∈ bboxes, calculate_bbox_overlap_ratio dpb x.bbox ≤
                       calculate_bbox_overlap_ratio dpb b.bbox) ∧
        (∀ x ∈ l1, calculate_bbox_overlap_ratio dpb x.bbox <
                   calculate_bbox_overlap_ratio dpb b.bbox))) ∧
    ((findMatchingBBox bboxes
        (get_bbox_from_denormalized_points (dpts.map Tok.int))).1 = none →
      (phase2 dpts bboxes e).bbox = [] ∧ (phase2 dpts bboxes e).species = "" ∧
      (phase2 dpts bboxes e).overlap_ratio = 0) := by
  constructor
  · exact findMatchingBBox_spec dpb bboxes
  · intro hnone
    simp [phase2, hnone]

/-- Witness for C3: with no detections the loop selects nothing and the
entry keeps the unmatched defaults. -/
theorem C3_witness :
    (phase2 [0, 0] [] (mkEntry 0 [] 0)).bbox = [] ∧
    (phase2 [0, 0] [] (mkEntry 0 [] 0)).species = "" ∧
    (phase2 [0, 0] [] (mkEntry 0 [] 0)).overlap_ratio = 0 :=
  (C3_matcher_selection [] [] [0, 0] (mkEntry 0 [] 0)).2 (by decide)

/-- C4 (confirmed): the overlap ratio is the intersection area of the two
axis-aligned boxes divided by the polygon-derived box's own area, 0.0 when
the boxes do not overlap or the polygon box has zero area, and the
function is total (never raises). -/
theorem C4_overlap_ratio_formula (dx1 dy1 dx2 dy2 bx1 by1 bx2 by2 : ℚ) :
    (min dx2 bx2 < max dx1 bx1 ∨ min dy2 by2 < max dy1 by1 →
      calculate_bbox_overlap_ratio
        [Tok.flt dx1, Tok.flt dy1, Tok.flt dx2, Tok.flt dy2]
        [Tok.flt bx1, Tok.flt by1, Tok.flt bx2, Tok.flt by2] = 0) ∧
    ((dx2 - dx1) * (dy2 - dy1) = 0 →
      calculate_bbox_overlap_ratio
        [Tok.flt dx1, Tok.flt dy1, Tok.flt dx2, Tok.flt dy2]
        [Tok.flt bx1, Tok.flt by1, Tok.flt bx2, Tok.flt by2] = 0) ∧
    (¬(min dx2 bx2 < max dx1 bx1 ∨ min dy2 by2 < max dy1 by1) →
      0 < (dx2 - dx1) * (dy2 - dy1) →
      calculate_bbox_overlap_ratio
          [Tok.flt dx1, Tok.flt dy1, Tok.flt dx2, Tok.flt dy2]
          [Tok.flt bx1, Tok.flt by1, Tok.flt bx2, Tok.flt by2] *
        ((dx2 - dx1) * (dy2 - dy1)) =
        (min dx2 bx2 - max dx1 bx1) * (min dy2 by2 - max dy1 by1)) := by
  have hp1 : parseBBoxTok [Tok.flt dx1, Tok.flt dy1, Tok.flt dx2, Tok.flt dy2] =
      some (dx1, dy1, dx2, dy2) := rfl
  have hp2 : parseBBoxTok [Tok.flt bx1, Tok.flt by1, Tok.flt bx2, Tok.flt by2] =
      some (bx1, by1, bx2, by2) := rfl
  refine ⟨?_, ?_, ?_⟩
  · intro hdis
    simp only [calculate_bbox_overlap_ratio, hp1, hp2]
    rw [if_pos hdis]
  · intro hz
    simp only [calculate_bbox_overlap_ratio, hp1, hp2]
    by_cases hdis : min dx2 bx2 < max dx1 bx1 ∨ min dy2 by2 < max dy1 by1
    · rw [if_pos hdis]
    · rw [if_neg hdis, hz, if_neg (lt_irrefl 0)]
  · intro hdis hpos
    simp only [calculate_bbox_overlap_ratio, hp1, hp2]
    rw [if_neg hdis, if_pos hpos]
    exact div_mul_cancel₀ _ (ne_of_gt hpos)

/-- Witness for C4: disjoint boxes give ratio 0. -/
theorem C4_witness :
    calculate_bbox_overlap_ratio
      [Tok.flt 0, Tok.flt 0, Tok.flt 1, Tok.flt 1]
      [Tok.flt 2, Tok.flt 2, Tok.flt 3, Tok.flt 3] = 0 :=
  (C4_overlap_ratio_formula 0 0 1 1 2 2 3 3).1 (by norm_num)

/-- C5 (counterexample): with a non-empty segmentation text and an empty
detection list the record is NOT returned unchanged: the entry's stale
`bbox` is overwritten with the empty default, among other fields. -/
theorem C5_counterexample :
    process_image_segmentations exRecC5 exTextOne ≠ exRecC5 := by decide

/-- C5 (amended): an empty segmentation text does return the record
unchanged; an empty detection list is not an error but still rewrites each
joined entry, which then carries the unmatched defaults (empty
`bbox`/`species`, ratio 0.0) or is an untouched original entry. -/
theorem C5_empty_inputs (r : ImageRecord) (t : SegText) (w h : ℚ) (sia : List SegEntry)
    (seg : ParsedSeg) (sia' : List SegEntry) :
    (t.nonempty = false → process_image_segmentations r t = r) ∧
    (stepSeg w h [] sia seg = (sia', false) →
      ∀ e ∈ sia', e ∈ sia ∨ (e.bbox = [] ∧ e.species = "" ∧ e.overlap_ratio = 0)) := by
  constructor
  · intro ht
    simp [process_image_segmentations, ht]
  · intro hstep e he
    cases hfe : firstEntry sia seg.index with
    | none =>
      have hval : stepSeg w h [] sia seg = (sia, false) := by
        unfold stepSeg; rw [hfe]
      rw [hval] at hstep
      injection hstep with h1 _
      rw [← h1] at he
      exact Or.inl he
    | some e0 =>
      cases hd : denormPoints w h seg.points_string with
      | none =>
        have hval : stepSeg w h [] sia seg =
            (updateEntry sia seg.index (phase1 seg), true) := by
          unfold stepSeg; rw [hfe, hd]
        rw [hval] at hstep
        injection hstep with _ h2
        exact absurd h2 (by simp)
      | some dpts =>
        have hval : stepSeg w h [] sia seg =
            (updateEntry (updateEntry sia seg.index (phase1 seg)) seg.index
               (phase2 dpts []), false) := by
          unfold stepSeg
          rw [hfe, hd]
        rw [updateEntry_comp _ _ _ _ (phase1_index seg)] at hval
        rw [hval] at hstep
        injection hstep with h1 _
        rw [← h1] at he
        rcases mem_updateEntry _ _ _ _ he with hm | ⟨e₁, _, hupd⟩
        · exact Or.inl hm
        · right
          rw [hupd]
          simp [phase2, findMatchingBBox]

/-- Witness for the amended C5: both the empty-text branch and the
empty-detections branch at concrete inputs. -/
theorem C5_amended_witness :
    process_image_segmentations exRecC5 (SegText.mk false [[]]) = exRecC5 ∧
    (exEntryC5out ∈ [mkEntry 1 [] 0] ∨
      (exEntryC5out.bbox = [] ∧ exEntryC5out.species = "" ∧
        exEntryC5out.overlap_ratio = 0)) :=
  ⟨(C5_empty_inputs exRecC5 (SegText.mk false [[]]) 0 0 [] exSegOk []).1 rfl,
   (C5_empty_inputs exRecC5 (SegText.mk false [[]]) 1000 1000 [mkEntry 1 [] 0] exSegOk
      exStepC5.1).2 (by with_unfolding_all decide) exEntryC5out
      (by with_unfolding_all decide)⟩

/-- C6 (counterexample): an entry whose index matches no parsed line is
left untouched, so a pre-existing out-of-range `overlap_ratio` (here 2)
survives the run. -/
theorem C6_counterexample :
    ∃ e ∈ (process_image_segmentations exRecC6 exTextOne).segmentation_indices_array.getD [],
      ¬(0 ≤ e.overlap_ratio ∧ e.overlap_ratio ≤ 1) := by
  with_unfolding_all decide

/-- C6 (amended): after the loop, every entry either keeps the
`overlap_ratio`, `bbox` and `species` of some input entry (untouched, or
touched only by the pre-loop field writes) or carries a freshly computed
ratio in `[0, 1]`, which is 0 with empty `bbox`/`species` when no
detection reached the 0.5 threshold and at least 0.5 otherwise. -/
theorem C6_ratio_invariant (w h : ℚ) (bb : List Detection) (segs : List ParsedSeg)
    (sia : List SegEntry) :
    ∀ e ∈ processLoop w h bb segs sia,
      (∃ e₀ ∈ sia, e.overlap_ratio = e₀.overlap_ratio ∧ e.bbox = e₀.bbox ∧
        e.species = e₀.species) ∨
      (0 ≤ e.overlap_ratio ∧ e.overlap_ratio ≤ 1 ∧
        ((e.overlap_ratio = 0 ∧ e.bbox = [] ∧ e.species = "") ∨
          1/2 ≤ e.overlap_ratio)) := by
  induction segs generalizing sia with
  | nil => intro e he; exact Or.inl ⟨e, he, rfl, rfl, rfl⟩
  | cons seg rest ih =>
    intro e he
    cases hfe : firstEntry sia seg.index with
    | none =>
      have hstep : stepSeg w h bb sia seg = (sia, false) := by
        unfold stepSeg; rw [hfe]
      have hpl : processLoop w h bb (seg :: rest) sia = processLoop w h bb rest sia := by
        rw [processLoop_cons, hstep]
      rw [hpl] at he
      exact ih sia e he
    | some e0 =>
      cases hd : denormPoints w h seg.points_string with
      | none =>
        have hstep : stepSeg w h bb sia seg =
            (updateEntry sia seg.index (phase1 seg), true) := by
          unfold stepSeg; rw [hfe, hd]
        have hpl : processLoop w h bb (seg :: rest) sia =
            updateEntry sia seg.index (phase1 seg) := by
          rw [processLoop_cons, hstep]
        rw [hpl] at he
        rcases mem_updateEntry _ _ _ _ he with hm | ⟨e₁, he₁, hupd⟩
        · exact Or.inl ⟨e, hm, rfl, rfl, rfl⟩
        · exact Or.inl ⟨e₁, he₁, by rw [hupd]; exact ⟨rfl, rfl, rfl⟩⟩
      | some dpts =>
        have hstep : stepSeg w h bb sia seg =
            (updateEntry (updateEntry sia seg.index (phase1 seg)) seg.index
               (phase2 dpts bb), false) := by
          unfold stepSeg; rw [hfe, hd]
        have hpl : processLoop w h bb (seg :: rest) sia =
            processLoop w h bb rest
              (updateEntry (updateEntry sia seg.index (phase1 seg)) seg.index
                (phase2 dpts bb)) := by
          rw [processLoop_cons, hstep]
        rw [updateEntry_comp _ _ _ _ (phase1_index seg)] at hpl
        rw [hpl] at he
        rcases ih _ e he with ⟨e₀, he₀, hr, hbb, hsp⟩ | hgood
        · rcases mem_updateEntry _ _ _ _ he₀ with hm | ⟨e₁, _, hupd⟩
          · exact Or.inl ⟨e₀, hm, hr, hbb, hsp⟩
          · right
            rw [hupd] at hr hbb hsp
            rcases phase2_ratio dpts bb (phase1 seg e₁) with ⟨h0, hb0, hs0⟩ | ⟨hhalf, hone⟩
            · rw [hr, hbb, hsp, h0, hb0, hs0]
              exact ⟨le_refl 0, by norm_num, Or.inl ⟨rfl, rfl, rfl⟩⟩
            · rw [hr]
              exact ⟨le_trans (by norm_num) hhalf, hone, Or.inr hhalf⟩
        · exact Or.inr hgood

/-- Witness for the amended C6 at a concrete successful step. -/
theorem C6_amended_witness :
    (∃ e₀ ∈ [mkEntry 1 [] 0], exEntryC6out.overlap_ratio = e₀.overlap_ratio ∧
      exEntryC6out.bbox = e₀.bbox ∧ exEntryC6out.species = e₀.species) ∨
    (0 ≤ exEntryC6out.overlap_ratio ∧ exEntryC6out.overlap_ratio ≤ 1 ∧
      ((exEntryC6out.overlap_ratio = 0 ∧ exEntryC6out.bbox = [] ∧
         exEntryC6out.species = "") ∨
        1/2 ≤ exEntryC6out.overlap_ratio)) :=
  C6_ratio_invariant 1000 1000 [] [exSegOk] [mkEntry 1 [] 0] exEntryC6out
    (by with_unfolding_all decide)

/-- When all guards pass, the operation replaces the entry array by the
output of the loop and leaves every other field alone. -/
theorem process_some (r : ImageRecord) (t : SegText) (sia : List SegEntry) (w h : ℚ)
    (ht : t.nonempty = true)
    (hw : floatOrDefault r.image_width 1024 = some w)
    (hh : floatOrDefault r.image_height 768 = some h)
    (hsia : r.segmentation_indices_array = some sia) :
    process_image_segmentations r t =
      { r with
          segmentation_indices_array :=
            some (processLoop w h r.info (parse_segmentation_file t.lines) sia) } := by
  simp [process_image_segmentations, ht, hsia, hw, hh]

/-- C7 (confirmed): reconciliation is idempotent; the second run rewrites
every mutated field with the same values. -/
theorem C7_idempotent (r : ImageRecord) (t : SegText) :
    process_image_segmentations (process_image_segmentations r t) t =
      process_image_segmentations r t := by
  cases ht : t.nonempty with
  | false =>
    have h0 : process_image_segmentations r t = r := by
      simp [process_image_segmentations, ht]
    simp only [h0]
  | true =>
    cases hsia : r.segmentation_indices_array with
    | none =>
      have h0 : process_image_segmentations r t = r := by
        simp [process_image_segmentations, ht, hsia]
      simp only [h0]
    | some sia =>
      cases hw : floatOrDefault r.image_width 1024 with
      | none =>
        have h0 : process_image_segmentations r t = r := by
          simp [process_image_segmentations, ht, hsia, hw]
        simp only [h0]
      | some w =>
        cases hh : floatOrDefault r.image_height 768 with
        | none =>
          have h0 : process_image_segmentations r t = r := by
            simp [process_image_segmentations, ht, hsia, hw, hh]
          simp only [h0]
        | some h =>
          have hpair : (parse_segmentation_file t.lines).Pairwise
              (fun a b => a.index ≠ b.index) :=
            (parseFileAux_sorted 0 t.lines).imp (fun hlt => ne_of_lt hlt)
          have h0 := process_some r t sia w h ht hw hh hsia
          have h1 := process_some
            { r with
                segmentation_indices_array :=
                  some (processLoop w h r.info (parse_segmentation_file t.lines) sia) }
            t (processLoop w h r.info (parse_segmentation_file t.lines) sia)
            w h ht hw hh rfl
          rw [h0, h1]
          rw [show ({ r with
              segmentation_indices_array :=
                some (processLoop w h r.info (parse_segmentation_file t.lines) sia) } :
                ImageRecord).info = r.info from rfl]
          rw [processLoop_idem w h r.info (parse_segmentation_file t.lines) hpair sia]

/-- C9 (confirmed): a successfully processed entry stores exactly the
half-to-even roundings of the exact products `x*w`, `y*h`, and both the
derived `denorm_points_bbox` and the stored `overlap_ratio` are computed
from those rounded integer coordinates. -/
theorem C9_rounded_storage (w h : ℚ) (bb : List Detection) (sia : List SegEntry)
    (seg : ParsedSeg) (dpts : List Int)
    (hd : denormPoints w h seg.points_string = some dpts)
    (hfe : (firstEntry sia seg.index).isSome = true) :
    (∃ fs : List ℚ, floatList seg.points_string = some fs ∧
        dpts = roundedProducts w h fs) ∧
    ∀ e ∈ (stepSeg w h bb sia seg).1, e ∈ sia ∨
      (e.denormalized_segmentation_points = dpts.map Tok.int ∧
       e.denorm_points_bbox = get_bbox_from_denormalized_points (dpts.map Tok.int) ∧
       e.overlap_ratio =
         (findMatchingBBox bb (get_bbox_from_denormalized_points (dpts.map Tok.int))).2) := by
  constructor
  · exact denormPoints_eq_roundedProducts w h seg.points_string dpts hd
  · intro e he
    cases hfe0 : firstEntry sia seg.index with
    | none => rw [hfe0] at hfe; simp at hfe
    | some e0 =>
      have hval : stepSeg w h bb sia seg =
          (updateEntry (updateEntry sia seg.index (phase1 seg)) seg.index
             (phase2 dpts bb), false) := by
        unfold stepSeg; rw [hfe0, hd]
      rw [updateEntry_comp _ _ _ _ (phase1_index seg)] at hval
      rw [hval] at he
      rcases mem_updateEntry _ _ _ _ he with hm | ⟨e₁, _, hupd⟩
      · exact Or.inl hm
      · right
        rw [hupd]
        exact phase2_fields dpts bb (phase1 seg e₁)

/-- Witness for C9: `0.1555 * 1000 = 155.5` is stored as the half-to-even
rounding 156, and the derived bbox and ratio are computed from the rounded
coordinates. -/
theorem C9_witness :
    exEntryC9out ∈ [mkEntry 0 [] 0] ∨
    (exEntryC9out.denormalized_segmentation_points =
       ([156, 500] : List Int).map Tok.int ∧
     exEntryC9out.denorm_points_bbox =
       get_bbox_from_denormalized_points (([156, 500] : List Int).map Tok.int) ∧
     exEntryC9out.overlap_ratio =
       (findMatchingBBox [] (get_bbox_from_denormalized_points
          (([156, 500] : List Int).map Tok.int))).2) :=
  (C9_rounded_storage 1000 1000 [] [mkEntry 0 [] 0] exSegRound [156, 500]
      (by with_unfolding_all decide) (by with_unfolding_all decide)).2 exEntryC9out
    (by with_unfolding_all decide)

/-- C8 (confirmed): for positive width and height the denormalization of
the normalization returns the original pair exactly (rational
arithmetic). -/
theorem C8_round_trip (x y w h : ℚ) (hw : 0 < w) (hh : 0 < h) :
    denormalize_coordinates (normalize_coordinates x y w h).1
      (normalize_coordinates x y w h).2 w h = (x, y) := by
  unfold normalize_coordinates denormalize_coordinates
  rw [if_neg (not_or.mpr ⟨ne_of_gt hw, ne_of_gt hh⟩)]
  simp only []
  rw [div_mul_cancel₀ _ (ne_of_gt hw), div_mul_cancel₀ _ (ne_of_gt hh)]

/-- Witness for C8 at a concrete point. -/
theorem C8_round_trip_witness :
    denormalize_coordinates (normalize_coordinates 3 5 2 7).1
      (normalize_coordinates 3 5 2 7).2 2 7 = (3, 5) :=
  C8_round_trip 3 5 2 7 (by norm_num) (by norm_num)

/-- C10 (confirmed): a present but non-convertible `image_width` or
`image_height` aborts the operation before any matching, returning the
record unchanged; the 1024 and 768 fallbacks are used exactly when the key
is absent, and a convertible value is used as given. -/
theorem C10_dimension_handling (r : ImageRecord) (t : SegText) :
    ((r.image_width = some none ∨ r.image_height = some none) →
      process_image_segmentations r t = r) ∧
    (r.image_width = none → floatOrDefault r.image_width 1024 = some 1024) ∧
    (r.image_height = none → floatOrDefault r.image_height 768 = some 768) ∧
    (∀ q : ℚ, r.image_width = some (some q) →
      floatOrDefault r.image_width 1024 = some q) := by
  refine ⟨?_, ?_, ?_, ?_⟩
  · intro hbad
    cases ht : t.nonempty with
    | false => simp [process_image_segmentations, ht]
    | true =>
      cases hsia : r.segmentation_indices_array with
      | none => simp [process_image_segmentations, ht, hsia]
      | some sia =>
        rcases hbad with hb | hb
        · simp [process_image_segmentations, ht, hsia, floatOrDefault, hb]
        · cases hw : floatOrDefault r.image_width 1024 with
          | none => simp [process_image_segmentations, ht, hsia, hw]
          | some w =>
            simp [process_image_segmentations, ht, hsia, hw, floatOrDefault, hb]
  · intro hnone; rw [hnone]; rfl
  · intro hnone; rw [hnone]; rfl
  · intro q hq; rw [hq]; rfl

/-- Witness for C10: a record whose `image_width` holds a non-convertible
value comes back unchanged, and an absent key falls back to 1024. -/
theorem C10_witness :
    process_image_segmentations (ImageRecord.mk (some none) (some (some 768)) [] (some []))
        exTextOne =
      ImageRecord.mk (some none) (some (some 768)) [] (some []) ∧
    floatOrDefault (ImageRecord.mk none none [] none).image_width 1024 = some 1024 :=
  ⟨(C10_dimension_handling (ImageRecord.mk (some none) (some (some 768)) [] (some []))
      exTextOne).1 (Or.inl rfl),
   (C10_dimension_handling (ImageRecord.mk none none [] none) exTextOne).2.1 rfl⟩
